import Mathlib

/-
Verification of the generated time-values sequence generators
(pkg/data/gen/values_sequence.gen.go) and the array cursor iterator's
pooled cursor builders (array_cursor_iterator.gen.go, package tsm1).

The five generated timeXValuesSequence types (Float, Integer, Unsigned,
String, Boolean) are mechanically identical up to the value type, so the
embedding is one definition generic over the value type `α`.  The global
block-size constant tsdb.DefaultMaxPointsPerBlock is outside the given
sources, so it appears as an explicit parameter `B`, matching the spec's
description of it as a single injected configuration constant.
-/

set_option maxHeartbeats 1000000

/-- Value-type tag, mirroring models.FieldType as used by ValueType. -/
inductive FieldType
  | Float
  | Integer
  | Unsigned
  | String
  | Boolean
deriving DecidableEq

/-- Typed array: a pair of timestamp and value buffers with equal logical
length, mirroring the generated floatArray / integerArray / ... records.
The logical length of each half is the list length. -/
structure typedArray (α : Type) where
  Timestamps : List Int
  Values : List α
deriving DecidableEq

/-- Modelled from the spec: the TimestampSequence interface (Reset, Write);
its concrete implementations are outside the given sources.  Write fills a
caller-provided buffer with the next deterministic values, so it is given
the buffer's length and returns the advanced state together with the
written contents as a function of index; writing through a Go slice cannot
change the slice's length, which this shape makes structural. -/
structure TimestampSequence (τ : Type) where
  Reset : τ → τ
  Write : τ → Nat → τ × (Nat → Int)

/-- Modelled from the spec: the (Float|Integer|Unsigned|String|Boolean)
ValuesSequence interface (Reset, Write over a typed buffer), generic over
the value type `α`; same Write convention as `TimestampSequence`. -/
structure ValuesSequence (υ α : Type) where
  Reset : υ → υ
  Write : υ → Nat → υ × (Nat → α)

/-- State of a timeXValuesSequence: the internal typed array, the two
sub-sequence states, the configured total `count`, the remaining count `n`,
and the fixed value-type tag. -/
structure timeValuesSequence (τ υ α : Type) where
  vals : typedArray α
  tsState : τ
  vsState : υ
  count : Int
  n : Int
  vtype : FieldType
deriving DecidableEq

/-- newFloatArrayLen and friends: a typed array of logical length `sz`
holding zero values (`d` is the value type's zero value). -/
def newTypedArrayLen {α : Type} (d : α) (sz : Nat) : typedArray α :=
  { Timestamps := List.replicate sz 0, Values := List.replicate sz d }

/-- NewTimeFloatValuesSequence and friends: buffer preallocated at the
block-size bound `B`, `n` initialized to `count`. -/
def NewTimeValuesSequence {τ υ α : Type} (B : Nat) (count : Int)
    (ts0 : τ) (vs0 : υ) (d : α) (vt : FieldType) : timeValuesSequence τ υ α :=
  { vals := newTypedArrayLen d B, tsState := ts0, vsState := vs0,
    count := count, n := count, vtype := vt }

/-- timeXValuesSequence.Reset: reset both sub-sequences and restore `n`
to `count`.  The typed array is left as it was. -/
def timeValuesSequence.Reset {τ υ α : Type} (ts : TimestampSequence τ)
    (vs : ValuesSequence υ α) (s : timeValuesSequence τ υ α) :
    timeValuesSequence τ υ α :=
  { s with
    tsState := ts.Reset s.tsState
    vsState := vs.Reset s.vsState
    n := s.count }

/-- timeXValuesSequence.Next: if `n > 0`, take `c = min n B`, decrement
`n` by `c`, resize both halves of the typed array to logical length `c`,
fill each by the corresponding sub-sequence's Write and return true;
otherwise return false leaving the state unchanged. -/
def timeValuesSequence.Next {τ υ α : Type} (ts : TimestampSequence τ)
    (vs : ValuesSequence υ α) (B : Nat) (s : timeValuesSequence τ υ α) :
    timeValuesSequence τ υ α × Bool :=
  if 0 < s.n then
    let c : Int := min s.n (B : Int)
    let cn : Nat := c.toNat
    let tw := ts.Write s.tsState cn
    let vw := vs.Write s.vsState cn
    ({ s with
        n := s.n - c
        vals := { Timestamps := (List.range cn).map tw.2,
                  Values := (List.range cn).map vw.2 }
        tsState := tw.1
        vsState := vw.1 }, true)
  else (s, false)

/-- timeXValuesSequence.Values: returns the internal typed array. -/
def timeValuesSequence.Values {τ υ α : Type}
    (s : timeValuesSequence τ υ α) : typedArray α := s.vals

/-- timeXValuesSequence.ValueType: the fixed value-type tag. -/
def timeValuesSequence.ValueType {τ υ α : Type}
    (s : timeValuesSequence τ υ α) : FieldType := s.vtype

/-- Driver loop: call Next up to `fuel` times, stopping at the first false
result, and record the logical length of the typed array emitted after
each true-returning call.  Returns the final state and the block lengths. -/
def runSeq {τ υ α : Type} (ts : TimestampSequence τ) (vs : ValuesSequence υ α)
    (B : Nat) : Nat → timeValuesSequence τ υ α →
    timeValuesSequence τ υ α × List Nat
  | 0, s => (s, [])
  | f + 1, s =>
    match timeValuesSequence.Next ts vs B s with
    | (s', true) =>
      let r := runSeq ts vs B f s'
      (r.1, s'.vals.Timestamps.length :: r.2)
    | (s', false) => (s', [])

/-- Iterate the state component of Next `k` times (unconditionally). -/
def nextIter {τ υ α : Type} (ts : TimestampSequence τ)
    (vs : ValuesSequence υ α) (B : Nat) :
    Nat → timeValuesSequence τ υ α → timeValuesSequence τ υ α
  | 0, s => s
  | k + 1, s => nextIter ts vs B k (timeValuesSequence.Next ts vs B s).1

/-- The block lengths produced by repeatedly taking `min n B` out of `n`:
the pure arithmetic skeleton of the generator's emission loop. -/
def chunkLens (n B : Nat) : List Nat :=
  if _h : 0 < n ∧ 0 < B then
    min n B :: chunkLens (n - min n B) B
  else []
termination_by n
decreasing_by
  simp_wf
  omega

lemma chunkLens_pos (n B : Nat) (hn : 0 < n) (hB : 0 < B) :
    chunkLens n B = min n B :: chunkLens (n - min n B) B := by
  rw [chunkLens]
  simp [hn, hB]

lemma chunkLens_zero (B : Nat) : chunkLens 0 B = [] := by
  rw [chunkLens]
  simp

lemma chunkLens_sum (B : Nat) (hB : 0 < B) :
    ∀ n, (chunkLens n B).sum = n := by
  intro n
  induction n using Nat.strong_induction_on with
  | _ n ih =>
    by_cases hn : 0 < n
    · rw [chunkLens_pos n B hn hB, List.sum_cons,
        ih (n - min n B) (by omega)]
      omega
    · have : n = 0 := by omega
      rw [this, chunkLens_zero]
      rfl

lemma chunkLens_length (B : Nat) (hB : 0 < B) :
    ∀ n, (chunkLens n B).length = (n + B - 1) / B := by
  intro n
  induction n using Nat.strong_induction_on with
  | _ n ih =>
    by_cases hn : 0 < n
    · rw [chunkLens_pos n B hn hB, List.length_cons,
        ih (n - min n B) (by omega)]
      have hrw : n + B - 1 = (n - 1) + B := by omega
      rw [hrw, Nat.add_div_right _ hB]
      by_cases hle : n ≤ B
      · have h1 : n - min n B = 0 := by omega
        have h2 : (n - 1) / B = 0 := Nat.div_eq_of_lt (by omega)
        have h3 : (0 + B - 1) / B = 0 := Nat.div_eq_of_lt (by omega)
        rw [h1, h2, h3]
      · have h1 : n - min n B = n - B := by omega
        have h2 : n - B + B - 1 = n - 1 := by omega
        rw [h1, h2]
    · have : n = 0 := by omega
      rw [this, chunkLens_zero]
      simp
      rw [Nat.div_eq_of_lt (show B - 1 < B by omega)]

lemma chunkLens_getD (B : Nat) (hB : 0 < B) :
    ∀ n i, i + 1 < (chunkLens n B).length → (chunkLens n B).getD i 0 = B := by
  intro n
  induction n using Nat.strong_induction_on with
  | _ n ih =>
    intro i h
    by_cases hn : 0 < n
    · rw [chunkLens_pos n B hn hB] at h ⊢
      match i with
      | 0 =>
        simp only [List.getD_cons_zero]
        have htail : chunkLens (n - min n B) B ≠ [] := by
          intro hnil
          rw [List.length_cons, hnil] at h
          simp at h
        have hpos : 0 < n - min n B := by
          by_contra hc
          push_neg at hc
          refine htail ?_
          rw [(by omega : n - min n B = 0)]
          exact chunkLens_zero B
        omega
      | i + 1 =>
        simp only [List.getD_cons_succ]
        refine ih (n - min n B) (by omega) i ?_
        rw [List.length_cons] at h
        omega
    · exfalso
      rw [(by omega : n = 0), chunkLens_zero] at h
      simp at h

lemma getLastD_of_ne_nil {l : List Nat} (a b : Nat) (h : l ≠ []) :
    l.getLastD a = l.getLastD b := by
  cases l with
  | nil => exact absurd rfl h
  | cons x xs => rw [List.getLastD_cons, List.getLastD_cons]

lemma chunkLens_getLastD (B : Nat) (hB : 0 < B) :
    ∀ n, 0 < n →
      (chunkLens n B).getLastD 0 = if n % B = 0 then B else n % B := by
  intro n
  induction n using Nat.strong_induction_on with
  | _ n ih =>
    intro hn
    rw [chunkLens_pos n B hn hB, List.getLastD_cons]
    by_cases hrem : n - min n B = 0
    · rw [(by rw [(by omega : n - min n B = 0)]; exact chunkLens_zero B :
        chunkLens (n - min n B) B = [])]
      show min n B = _
      rcases Nat.lt_or_ge n B with hlt | hge
      · rw [if_neg (by rw [Nat.mod_eq_of_lt hlt]; omega)]
        rw [Nat.mod_eq_of_lt hlt]
        omega
      · have hnb : n = B := by omega
        rw [hnb, Nat.mod_self, if_pos rfl]
        omega
    · have hmin : min n B = B := by omega
      have htail : chunkLens (n - min n B) B ≠ [] := by
        rw [chunkLens_pos (n - min n B) B (by omega) hB]
        simp
      rw [getLastD_of_ne_nil (min n B) 0 htail,
        ih (n - min n B) (by omega) (by omega), hmin]
      have hmod : (n - B) % B = n % B := (Nat.mod_eq_sub_mod (by omega)).symm
      rw [hmod]

/-- Operations a caller can perform that mutate a sequence's state. -/
inductive SeqOp
  | next
  | reset

/-- Apply a list of mutating operations to a sequence state. -/
def applyOps {τ υ α : Type} (ts : TimestampSequence τ)
    (vs : ValuesSequence υ α) (B : Nat) :
    List SeqOp → timeValuesSequence τ υ α → timeValuesSequence τ υ α
  | [], s => s
  | SeqOp.next :: rest, s =>
    applyOps ts vs B rest (timeValuesSequence.Next ts vs B s).1
  | SeqOp.reset :: rest, s =>
    applyOps ts vs B rest (timeValuesSequence.Reset ts vs s)

/-- Observable trace of `fuel` successive Next calls: each call's boolean
result, the typed array visible through Values after the call when the
call returned true, and the ValueType tag. -/
def nextObs {τ υ α : Type} (ts : TimestampSequence τ)
    (vs : ValuesSequence υ α) (B : Nat) :
    Nat → timeValuesSequence τ υ α →
    List (Bool × Option (typedArray α) × FieldType)
  | 0, _ => []
  | f + 1, s =>
    ((timeValuesSequence.Next ts vs B s).2,
      if (timeValuesSequence.Next ts vs B s).2 then
        some (timeValuesSequence.Next ts vs B s).1.vals
      else none,
      timeValuesSequence.ValueType (timeValuesSequence.Next ts vs B s).1)
      :: nextObs ts vs B f (timeValuesSequence.Next ts vs B s).1

/-- A concrete timestamp sequence writing the index as the timestamp. -/
def exTS : TimestampSequence Unit :=
  { Reset := fun _ => (), Write := fun _ _ => ((), fun i => (i : Int)) }

/-- A concrete values sequence writing the constant 7. -/
def exVS : ValuesSequence Unit Int :=
  { Reset := fun _ => (), Write := fun _ _ => ((), fun _ => (7 : Int)) }

/-- Sanity check: the driver loop is executable on concrete inputs. -/
lemma runSeq_small_check :
    (runSeq exTS exVS 3 8
      (NewTimeValuesSequence 3 7 () () (0 : Int) FieldType.Float)).2
      = [3, 3, 1] := by decide

/-- Sanity check: the spec's concrete scenario in the pure skeleton. -/
lemma chunkLens_250_100 : chunkLens 250 100 = [100, 100, 50] := by
  rw [chunkLens, chunkLens, chunkLens, chunkLens]
  norm_num

lemma Next_of_pos {τ υ α : Type} (ts : TimestampSequence τ)
    (vs : ValuesSequence υ α) (B : Nat) (s : timeValuesSequence τ υ α)
    (h : 0 < s.n) :
    timeValuesSequence.Next ts vs B s =
      ({ s with
          n := s.n - min s.n (B : Int)
          vals := { Timestamps :=
                      (List.range (min s.n (B : Int)).toNat).map
                        (ts.Write s.tsState (min s.n (B : Int)).toNat).2,
                    Values :=
                      (List.range (min s.n (B : Int)).toNat).map
                        (vs.Write s.vsState (min s.n (B : Int)).toNat).2 }
          tsState := (ts.Write s.tsState (min s.n (B : Int)).toNat).1
          vsState := (vs.Write s.vsState (min s.n (B : Int)).toNat).1 },
        true) := by
  simp [timeValuesSequence.Next, h]

lemma Next_of_nonpos {τ υ α : Type} (ts : TimestampSequence τ)
    (vs : ValuesSequence υ α) (B : Nat) (s : timeValuesSequence τ υ α)
    (h : s.n ≤ 0) :
    timeValuesSequence.Next ts vs B s = (s, false) := by
  simp [timeValuesSequence.Next, not_lt.mpr h]

lemma toNat_min_coe (a : Int) (B : Nat) (ha : 0 ≤ a) :
    (min a (B : Int)).toNat = min a.toNat B := by
  omega

lemma nextIter_exhausted {τ υ α : Type} (ts : TimestampSequence τ)
    (vs : ValuesSequence υ α) (B : Nat) (k : Nat)
    (s : timeValuesSequence τ υ α) (h : s.n ≤ 0) :
    nextIter ts vs B k s = s := by
  induction k with
  | zero => rfl
  | succ k ih =>
    rw [nextIter, Next_of_nonpos ts vs B s h]
    exact ih

lemma runSeq_spec {τ υ α : Type} (ts : TimestampSequence τ)
    (vs : ValuesSequence υ α) (B : Nat) (hB : 0 < B) :
    ∀ (f : Nat) (s : timeValuesSequence τ υ α), 0 ≤ s.n → s.n.toNat ≤ f →
      (runSeq ts vs B f s).2 = chunkLens s.n.toNat B ∧
      (runSeq ts vs B f s).1.n = 0 := by
  intro f
  induction f with
  | zero =>
    intro s h0 hf
    have hn : s.n = 0 := by omega
    rw [runSeq]
    constructor
    · rw [hn]
      simp [chunkLens_zero]
    · exact hn
  | succ f ih =>
    intro s h0 hf
    by_cases hpos : 0 < s.n
    · rw [runSeq]
      split
      · rename_i s' heq
        rw [Next_of_pos ts vs B s hpos] at heq
        injection heq with hs hb
        have h2 : s'.n = s.n - min s.n (B : Int) := by rw [← hs]
        have h3 : s'.vals.Timestamps.length = (min s.n (B : Int)).toNat := by
          rw [← hs]
          simp
        have h0' : 0 ≤ s'.n := by omega
        have hf' : s'.n.toNat ≤ f := by omega
        have hih := ih s' h0' hf'
        refine ⟨?_, hih.2⟩
        show s'.vals.Timestamps.length :: (runSeq ts vs B f s').2 =
          chunkLens s.n.toNat B
        rw [chunkLens_pos s.n.toNat B (by omega) hB, hih.1, h3]
        congr 1
        · omega
        · congr 1
          omega
      · rename_i s' heq
        rw [Next_of_pos ts vs B s hpos] at heq
        injection heq with hs hb
        exact absurd hb (by simp)
    · have hn : s.n = 0 := by omega
      rw [runSeq, Next_of_nonpos ts vs B s (by omega)]
      refine ⟨?_, hn⟩
      rw [hn]
      simp [chunkLens_zero]

/-- C1: for a Time Values Sequence constructed with total count C >= 0 and
block-size bound B > 0, driving next() to exhaustion emits exactly
ceil(C / B) = (C + B - 1) / B true-returning calls; the emitted block
lengths sum to C; every block except possibly the last has length B; the
last block has length C mod B (or B when B divides C); and the call after
the last emitted block returns false. -/
theorem c1_sequence_block_arithmetic {τ υ α : Type}
    (ts : TimestampSequence τ) (vs : ValuesSequence υ α)
    (B : Nat) (C : Int) (t0 : τ) (v0 : υ) (d : α) (vt : FieldType) (f : Nat)
    (hB : 0 < B) (hC : 0 ≤ C) (hf : C.toNat ≤ f) :
    (runSeq ts vs B f (NewTimeValuesSequence B C t0 v0 d vt)).2.length =
      (C.toNat + B - 1) / B ∧
    (runSeq ts vs B f (NewTimeValuesSequence B C t0 v0 d vt)).2.sum =
      C.toNat ∧
    (∀ i, i + 1 <
        (runSeq ts vs B f (NewTimeValuesSequence B C t0 v0 d vt)).2.length →
      (runSeq ts vs B f (NewTimeValuesSequence B C t0 v0 d vt)).2.getD i 0
        = B) ∧
    (0 < C →
      (runSeq ts vs B f (NewTimeValuesSequence B C t0 v0 d vt)).2.getLastD 0
        = if C.toNat % B = 0 then B else C.toNat % B) ∧
    timeValuesSequence.Next ts vs B
        (runSeq ts vs B f (NewTimeValuesSequence B C t0 v0 d vt)).1 =
      ((runSeq ts vs B f (NewTimeValuesSequence B C t0 v0 d vt)).1, false) := by
  have hn : (NewTimeValuesSequence B C t0 v0 d vt :
      timeValuesSequence τ υ α).n = C := rfl
  have h := runSeq_spec ts vs B hB f (NewTimeValuesSequence B C t0 v0 d vt)
    (by rw [hn]; exact hC) (by rw [hn]; exact hf)
  rw [hn] at h
  refine ⟨?_, ?_, ?_, ?_, ?_⟩
  · rw [h.1]
    exact chunkLens_length B hB C.toNat
  · rw [h.1]
    exact chunkLens_sum B hB C.toNat
  · intro i hi
    rw [h.1] at hi ⊢
    exact chunkLens_getD B hB C.toNat i hi
  · intro hCpos
    rw [h.1]
    exact chunkLens_getLastD B hB C.toNat (by omega)
  · exact Next_of_nonpos ts vs B _ (by rw [h.2])

theorem c1_witness :
    (runSeq exTS exVS 100 251
      (NewTimeValuesSequence 100 250 () () (0 : Int) FieldType.Float)).2.length
        = 3 ∧
    (runSeq exTS exVS 100 251
      (NewTimeValuesSequence 100 250 () () (0 : Int) FieldType.Float)).2.sum
        = 250 ∧
    (runSeq exTS exVS 100 251
      (NewTimeValuesSequence 100 250 () () (0 : Int) FieldType.Float)).2.getLastD 0
        = 50 := by
  have h := c1_sequence_block_arithmetic exTS exVS 100 250 () () (0 : Int)
    FieldType.Float 251 (by decide) (by decide) (by decide)
  exact ⟨h.1.trans (by decide), h.2.1.trans (by decide),
    (h.2.2.2.1 (by decide)).trans (by decide)⟩

/-- C2: from a state with remaining count n > 0, one next() call computes
c = min(n, blockSizeBound), decrements n by c, resizes both halves of the
typed array to logical length exactly c, fills each half from the
timestamp sequence's and values sequence's Write, leaves count unchanged,
and returns true. -/
theorem c2_next_single_step {τ υ α : Type} (ts : TimestampSequence τ)
    (vs : ValuesSequence υ α) (B : Nat) (s : timeValuesSequence τ υ α)
    (h : 0 < s.n) :
    (timeValuesSequence.Next ts vs B s).2 = true ∧
    (timeValuesSequence.Next ts vs B s).1.n = s.n - min s.n (B : Int) ∧
    (timeValuesSequence.Next ts vs B s).1.count = s.count ∧
    (timeValuesSequence.Next ts vs B s).1.vals.Timestamps.length
      = (min s.n (B : Int)).toNat ∧
    (timeValuesSequence.Next ts vs B s).1.vals.Values.length
      = (min s.n (B : Int)).toNat ∧
    (timeValuesSequence.Next ts vs B s).1.vals.Timestamps
      = (List.range (min s.n (B : Int)).toNat).map
          (ts.Write s.tsState (min s.n (B : Int)).toNat).2 ∧
    (timeValuesSequence.Next ts vs B s).1.vals.Values
      = (List.range (min s.n (B : Int)).toNat).map
          (vs.Write s.vsState (min s.n (B : Int)).toNat).2 ∧
    (timeValuesSequence.Next ts vs B s).1.tsState
      = (ts.Write s.tsState (min s.n (B : Int)).toNat).1 ∧
    (timeValuesSequence.Next ts vs B s).1.vsState
      = (vs.Write s.vsState (min s.n (B : Int)).toNat).1 := by
  rw [Next_of_pos ts vs B s h]
  refine ⟨rfl, rfl, rfl, ?_, ?_, rfl, rfl, rfl, rfl⟩ <;> simp

theorem c2_witness :
    (0 : Int) <
      (NewTimeValuesSequence 100 250 () () (0 : Int) FieldType.Float :
        timeValuesSequence Unit Unit Int).n ∧
    (timeValuesSequence.Next exTS exVS 100
      (NewTimeValuesSequence 100 250 () () (0 : Int) FieldType.Float)).2
        = true :=
  ⟨by decide,
    (c2_next_single_step exTS exVS 100
      (NewTimeValuesSequence 100 250 () () (0 : Int) FieldType.Float)
      (by decide)).1⟩

/-- C3: whenever the remaining count is exhausted (n <= 0, in particular
n = 0), next() returns false and leaves the state unchanged, and this is
terminal: any number of further next() calls leaves the state unchanged
and keeps returning false.  Values and ValueType are pure observers, so
only Reset (which writes n := count) can leave this state. -/
theorem c3_exhausted_terminal {τ υ α : Type} (ts : TimestampSequence τ)
    (vs : ValuesSequence υ α) (B : Nat) (s : timeValuesSequence τ υ α)
    (h : s.n ≤ 0) :
    timeValuesSequence.Next ts vs B s = (s, false) ∧
    (∀ k, nextIter ts vs B k s = s) ∧
    (∀ k, (timeValuesSequence.Next ts vs B (nextIter ts vs B k s)).2
      = false) := by
  refine ⟨Next_of_nonpos ts vs B s h, fun k => nextIter_exhausted ts vs B k s h,
    fun k => ?_⟩
  rw [nextIter_exhausted ts vs B k s h, Next_of_nonpos ts vs B s h]

theorem c3_witness :
    timeValuesSequence.Next exTS exVS 100
      (NewTimeValuesSequence 100 0 () () (0 : Int) FieldType.Float)
      = (NewTimeValuesSequence 100 0 () () (0 : Int) FieldType.Float,
          false) :=
  (c3_exhausted_terminal exTS exVS 100
    (NewTimeValuesSequence 100 0 () () (0 : Int) FieldType.Float)
    (by decide)).1

/-- C9: a sequence constructed with count <= 0 (including negative counts)
is born exhausted: the first next() returns false with the state
unchanged, the driver loop emits no block for any fuel, and after reset()
the first next() again returns false. -/
theorem c9_nonpositive_count_born_exhausted {τ υ α : Type}
    (ts : TimestampSequence τ) (vs : ValuesSequence υ α) (B : Nat)
    (C : Int) (t0 : τ) (v0 : υ) (d : α) (vt : FieldType)
    (hC : C ≤ 0) :
    timeValuesSequence.Next ts vs B (NewTimeValuesSequence B C t0 v0 d vt)
      = (NewTimeValuesSequence B C t0 v0 d vt, false) ∧
    (∀ f, (runSeq ts vs B f (NewTimeValuesSequence B C t0 v0 d vt)).2
      = []) ∧
    timeValuesSequence.Next ts vs B
        (timeValuesSequence.Reset ts vs (NewTimeValuesSequence B C t0 v0 d vt))
      = (timeValuesSequence.Reset ts vs (NewTimeValuesSequence B C t0 v0 d vt),
          false) := by
  have hn : (NewTimeValuesSequence B C t0 v0 d vt :
      timeValuesSequence τ υ α).n = C := rfl
  refine ⟨Next_of_nonpos ts vs B _ (by rw [hn]; exact hC), fun f => ?_, ?_⟩
  · cases f with
    | zero => rfl
    | succ f =>
      rw [runSeq, Next_of_nonpos ts vs B _ (by rw [hn]; exact hC)]
  · refine Next_of_nonpos ts vs _ _ ?_
    show (NewTimeValuesSequence B C t0 v0 d vt :
      timeValuesSequence τ υ α).count ≤ 0
    exact hC

theorem c9_witness :
    timeValuesSequence.Next exTS exVS 100
      (NewTimeValuesSequence 100 (-3) () () (0 : Int) FieldType.Float)
      = (NewTimeValuesSequence 100 (-3) () () (0 : Int) FieldType.Float,
          false) :=
  (c9_nonpositive_count_born_exhausted exTS exVS 100 (-3) () () (0 : Int)
    FieldType.Float (by decide)).1

/-- The typed-array invariant: both halves have equal logical length and
the length never exceeds the block-size bound. -/
def arrayInv {τ υ α : Type} (B : Nat) (s : timeValuesSequence τ υ α) : Prop :=
  s.vals.Timestamps.length = s.vals.Values.length ∧
  s.vals.Timestamps.length ≤ B

lemma arrayInv_new {τ υ α : Type} (B : Nat) (C : Int) (t0 : τ) (v0 : υ)
    (d : α) (vt : FieldType) :
    arrayInv B (NewTimeValuesSequence B C t0 v0 d vt :
      timeValuesSequence τ υ α) := by
  constructor <;> simp [NewTimeValuesSequence, newTypedArrayLen]

lemma arrayInv_next {τ υ α : Type} (ts : TimestampSequence τ)
    (vs : ValuesSequence υ α) (B : Nat) (s : timeValuesSequence τ υ α)
    (h : arrayInv B s) :
    arrayInv B (timeValuesSequence.Next ts vs B s).1 := by
  by_cases hpos : 0 < s.n
  · rw [Next_of_pos ts vs B s hpos]
    constructor <;> simp
  · rw [Next_of_nonpos ts vs B s (by omega)]
    exact h

lemma arrayInv_reset {τ υ α : Type} (ts : TimestampSequence τ)
    (vs : ValuesSequence υ α) (B : Nat) (s : timeValuesSequence τ υ α)
    (h : arrayInv B s) :
    arrayInv B (timeValuesSequence.Reset ts vs s) := h

lemma arrayInv_applyOps {τ υ α : Type} (ts : TimestampSequence τ)
    (vs : ValuesSequence υ α) (B : Nat) :
    ∀ (ops : List SeqOp) (s : timeValuesSequence τ υ α), arrayInv B s →
      arrayInv B (applyOps ts vs B ops s) := by
  intro ops
  induction ops with
  | nil => intro s h; exact h
  | cons op rest ih =>
    intro s h
    cases op with
    | next => exact ih _ (arrayInv_next ts vs B s h)
    | reset => exact ih _ (arrayInv_reset ts vs B s h)

/-- C7: after construction and after any sequence of next()/reset()
operations, the internal typed array has equal-length timestamp and value
halves, and its logical length never exceeds the block-size bound. -/
theorem c7_typed_array_invariant {τ υ α : Type} (ts : TimestampSequence τ)
    (vs : ValuesSequence υ α) (B : Nat) (C : Int) (t0 : τ) (v0 : υ)
    (d : α) (vt : FieldType) (ops : List SeqOp) :
    (applyOps ts vs B ops
        (NewTimeValuesSequence B C t0 v0 d vt)).vals.Timestamps.length =
      (applyOps ts vs B ops
        (NewTimeValuesSequence B C t0 v0 d vt)).vals.Values.length ∧
    (applyOps ts vs B ops
        (NewTimeValuesSequence B C t0 v0 d vt)).vals.Timestamps.length ≤ B :=
  arrayInv_applyOps ts vs B ops (NewTimeValuesSequence B C t0 v0 d vt)
    (arrayInv_new B C t0 v0 d vt)

/-- C8: when a true-returning next() call exhausts the remaining count
(0 < n <= blockSizeBound), every later call leaves the state unchanged, so
values() keeps returning the very block that last call filled — a non-empty
stale block, not an empty array, and values() cannot fail since it is a
total read of the state. -/
theorem c8_stale_terminal_read {τ υ α : Type} (ts : TimestampSequence τ)
    (vs : ValuesSequence υ α) (B : Nat) (s : timeValuesSequence τ υ α)
    (h1 : 0 < s.n) (h2 : s.n ≤ (B : Int)) :
    (timeValuesSequence.Next ts vs B s).2 = true ∧
    (timeValuesSequence.Next ts vs B s).1.n = 0 ∧
    0 < (timeValuesSequence.Values
        (timeValuesSequence.Next ts vs B s).1).Timestamps.length ∧
    (∀ k, timeValuesSequence.Values
        (nextIter ts vs B k (timeValuesSequence.Next ts vs B s).1)
      = timeValuesSequence.Values (timeValuesSequence.Next ts vs B s).1) ∧
    (∀ k, (timeValuesSequence.Next ts vs B
        (nextIter ts vs B k (timeValuesSequence.Next ts vs B s).1)).2
      = false) := by
  have hn : (timeValuesSequence.Next ts vs B s).1.n = 0 := by
    rw [Next_of_pos ts vs B s h1]
    show s.n - min s.n (B : Int) = 0
    omega
  have hlen : (timeValuesSequence.Next ts vs B s).1.vals.Timestamps.length
      = (min s.n (B : Int)).toNat := by
    rw [Next_of_pos ts vs B s h1]
    simp
  refine ⟨?_, hn, ?_, fun k => ?_, fun k => ?_⟩
  · rw [Next_of_pos ts vs B s h1]
  · show 0 < (timeValuesSequence.Next ts vs B s).1.vals.Timestamps.length
    rw [hlen]
    omega
  · rw [nextIter_exhausted ts vs B k _ (by omega)]
  · rw [nextIter_exhausted ts vs B k _ (by omega),
      Next_of_nonpos ts vs B _ (by omega)]

theorem c8_witness :
    (timeValuesSequence.Next exTS exVS 100
      (NewTimeValuesSequence 100 50 () () (0 : Int) FieldType.Float)).2
        = true ∧
    timeValuesSequence.Values
        (nextIter exTS exVS 100 3
          (timeValuesSequence.Next exTS exVS 100
            (NewTimeValuesSequence 100 50 () () (0 : Int) FieldType.Float)).1)
      = timeValuesSequence.Values
          (timeValuesSequence.Next exTS exVS 100
            (NewTimeValuesSequence 100 50 () () (0 : Int) FieldType.Float)).1 := by
  have h := c8_stale_terminal_read exTS exVS 100
    (NewTimeValuesSequence 100 50 () () (0 : Int) FieldType.Float)
    (by decide) (by decide)
  exact ⟨h.1, h.2.2.2.1 3⟩

lemma Next_congr {τ υ α : Type} (ts : TimestampSequence τ)
    (vs : ValuesSequence υ α) (B : Nat) (s₁ s₂ : timeValuesSequence τ υ α)
    (hn : s₁.n = s₂.n) (hc : s₁.count = s₂.count)
    (hts : s₁.tsState = s₂.tsState) (hvs : s₁.vsState = s₂.vsState)
    (hvt : s₁.vtype = s₂.vtype) :
    (timeValuesSequence.Next ts vs B s₁).2
      = (timeValuesSequence.Next ts vs B s₂).2 ∧
    (timeValuesSequence.Next ts vs B s₁).1.n
      = (timeValuesSequence.Next ts vs B s₂).1.n ∧
    (timeValuesSequence.Next ts vs B s₁).1.count
      = (timeValuesSequence.Next ts vs B s₂).1.count ∧
    (timeValuesSequence.Next ts vs B s₁).1.tsState
      = (timeValuesSequence.Next ts vs B s₂).1.tsState ∧
    (timeValuesSequence.Next ts vs B s₁).1.vsState
      = (timeValuesSequence.Next ts vs B s₂).1.vsState ∧
    (timeValuesSequence.Next ts vs B s₁).1.vtype
      = (timeValuesSequence.Next ts vs B s₂).1.vtype ∧
    ((timeValuesSequence.Next ts vs B s₁).2 = true →
      (timeValuesSequence.Next ts vs B s₁).1.vals
        = (timeValuesSequence.Next ts vs B s₂).1.vals) := by
  by_cases hpos : 0 < s₁.n
  · rw [Next_of_pos ts vs B s₁ hpos, Next_of_pos ts vs B s₂ (by omega)]
    refine ⟨rfl, ?_, ?_, ?_, ?_, ?_, fun _ => ?_⟩
    · show s₁.n - min s₁.n (B : Int) = s₂.n - min s₂.n (B : Int)
      rw [hn]
    · exact hc
    · show (ts.Write s₁.tsState (min s₁.n (B : Int)).toNat).1
        = (ts.Write s₂.tsState (min s₂.n (B : Int)).toNat).1
      rw [hn, hts]
    · show (vs.Write s₁.vsState (min s₁.n (B : Int)).toNat).1
        = (vs.Write s₂.vsState (min s₂.n (B : Int)).toNat).1
      rw [hn, hvs]
    · exact hvt
    · show typedArray.mk
          ((List.range (min s₁.n (B : Int)).toNat).map
            (ts.Write s₁.tsState (min s₁.n (B : Int)).toNat).2)
          ((List.range (min s₁.n (B : Int)).toNat).map
            (vs.Write s₁.vsState (min s₁.n (B : Int)).toNat).2)
        = typedArray.mk
          ((List.range (min s₂.n (B : Int)).toNat).map
            (ts.Write s₂.tsState (min s₂.n (B : Int)).toNat).2)
          ((List.range (min s₂.n (B : Int)).toNat).map
            (vs.Write s₂.vsState (min s₂.n (B : Int)).toNat).2)
      rw [hn, hts, hvs]
  · rw [Next_of_nonpos ts vs B s₁ (by omega),
      Next_of_nonpos ts vs B s₂ (by omega)]
    exact ⟨rfl, hn, hc, hts, hvs, hvt, by simp⟩

lemma nextObs_congr {τ υ α : Type} (ts : TimestampSequence τ)
    (vs : ValuesSequence υ α) (B : Nat) :
    ∀ (f : Nat) (s₁ s₂ : timeValuesSequence τ υ α),
      s₁.n = s₂.n → s₁.count = s₂.count → s₁.tsState = s₂.tsState →
      s₁.vsState = s₂.vsState → s₁.vtype = s₂.vtype →
      nextObs ts vs B f s₁ = nextObs ts vs B f s₂ := by
  intro f
  induction f with
  | zero => intro s₁ s₂ _ _ _ _ _; rfl
  | succ f ih =>
    intro s₁ s₂ hn hc hts hvs hvt
    obtain ⟨h1, h2, h3, h4, h5, h6, h7⟩ :=
      Next_congr ts vs B s₁ s₂ hn hc hts hvs hvt
    rw [nextObs, nextObs, h1]
    congr 1
    · simp only [timeValuesSequence.ValueType]
      cases hb : (timeValuesSequence.Next ts vs B s₂).2
      · simp only [Bool.false_eq_true, if_false]
        rw [h6]
      · simp only [if_true]
        rw [h7 (h1.trans hb), h6]
    · exact ih _ _ h2 h3 h4 h5 h6

/-- C4 counterexample: for a sequence with count 1 and bound 2 whose lone
block has been consumed, reset() restores the remaining count, but the
internal typed array keeps the stale one-point block, so values() on the
reset sequence differs from values() on a freshly constructed one (which
holds the zero-initialized bound-length buffer).  The claim's promise that
reset makes next()/Values()/ValueType() behave identically to a fresh
sequence therefore fails at the Values() observation taken before the
first next(). -/
theorem c4_counterexample :
    timeValuesSequence.Values
        (timeValuesSequence.Reset exTS exVS
          (timeValuesSequence.Next exTS exVS 2
            (NewTimeValuesSequence 2 1 () () (0 : Int) FieldType.Float)).1)
      ≠ timeValuesSequence.Values
          (NewTimeValuesSequence 2 1 () () (0 : Int) FieldType.Float) := by
  decide

/-- C4 (amended): reset() restores the remaining count to the configured
total and resets both sub-sequences; assuming the sub-sequences' Reset
restores their initial states, the reset sequence and a freshly
constructed one with the same count agree on ValueType and on the entire
observable next() stream — each call's boolean result and the block
visible through values() after every true-returning call.  (Only the
values() observation taken while no true-returning next() has occurred can
differ: it shows the stale previous block instead of the fresh
zero-initialized buffer.) -/
theorem c4_reset_fresh_equivalence {τ υ α : Type} (ts : TimestampSequence τ)
    (vs : ValuesSequence υ α) (B : Nat) (s : timeValuesSequence τ υ α)
    (t0 : τ) (v0 : υ) (d : α)
    (hts : ts.Reset s.tsState = t0) (hvs : vs.Reset s.vsState = v0) :
    timeValuesSequence.ValueType (timeValuesSequence.Reset ts vs s)
      = timeValuesSequence.ValueType
          (NewTimeValuesSequence B s.count t0 v0 d s.vtype :
            timeValuesSequence τ υ α) ∧
    ∀ f, nextObs ts vs B f (timeValuesSequence.Reset ts vs s)
      = nextObs ts vs B f
          (NewTimeValuesSequence B s.count t0 v0 d s.vtype) := by
  refine ⟨rfl, fun f => ?_⟩
  refine nextObs_congr ts vs B f _ _ rfl rfl ?_ ?_ rfl
  · exact hts
  · exact hvs

theorem c4_witness :
    timeValuesSequence.ValueType
        (timeValuesSequence.Reset exTS exVS
          (timeValuesSequence.Next exTS exVS 2
            (NewTimeValuesSequence 2 1 () () (0 : Int) FieldType.Float)).1)
      = timeValuesSequence.ValueType
          (NewTimeValuesSequence 2
            (timeValuesSequence.Next exTS exVS 2
              (NewTimeValuesSequence 2 1 () () (0 : Int) FieldType.Float)).1.count
            () () (0 : Int)
            (timeValuesSequence.Next exTS exVS 2
              (NewTimeValuesSequence 2 1 () () (0 : Int) FieldType.Float)).1.vtype :
            timeValuesSequence Unit Unit Int) :=
  (c4_reset_fresh_equivalence exTS exVS 2
    (timeValuesSequence.Next exTS exVS 2
      (NewTimeValuesSequence 2 1 () () (0 : Int) FieldType.Float)).1
    () () (0 : Int) (by rfl) (by rfl)).1

/-- Modelled from the spec: one pooled merge-cursor slot per value type for
one direction.  A cursor instance is represented by the allocation token
handed out when newXArray(As|Des)cendingCursor ran; the cursor's internal
scan state, reinitialized by reset on every build, is not observed here. -/
structure cursorPool where
  Float : Option Nat
  Integer : Option Nat
  Unsigned : Option Nat
  String : Option Nat
  Boolean : Option Nat
deriving DecidableEq

/-- The arrayCursorIterator's mutable cursor state: the ascending and
descending pools plus an allocation counter supplying fresh instance
tokens. -/
structure arrayCursorIterator where
  asc : cursorPool
  desc : cursorPool
  nextAlloc : Nat
deriving DecidableEq

/-- Read the pool slot for one value type. -/
def cursorPool.get (p : cursorPool) : FieldType → Option Nat
  | FieldType.Float => p.Float
  | FieldType.Integer => p.Integer
  | FieldType.Unsigned => p.Unsigned
  | FieldType.String => p.String
  | FieldType.Boolean => p.Boolean

/-- Write the pool slot for one value type. -/
def cursorPool.set (p : cursorPool) : FieldType → Option Nat → cursorPool
  | FieldType.Float, c => { p with Float := c }
  | FieldType.Integer, c => { p with Integer := c }
  | FieldType.Unsigned, c => { p with Unsigned := c }
  | FieldType.String, c => { p with String := c }
  | FieldType.Boolean, c => { p with Boolean := c }

/-- The (type, direction) slot of the iterator. -/
def arrayCursorIterator.slot (q : arrayCursorIterator) (t : FieldType)
    (ascending : Bool) : Option Nat :=
  if ascending then q.asc.get t else q.desc.get t

/-- buildFloatArrayCursor .. buildBooleanArrayCursor, identical up to the
(type, direction) slot: if the slot for the requested direction and value
type is nil, allocate a fresh cursor into it; then reset that cursor.
`resetErr` is the outcome of the reset call — modelled from the spec as an
input, since reset's Disk Cursor failure originates outside the given
sources.  On error the build returns (nil cursor, error); otherwise it
returns the pooled cursor and no error. -/
def buildArrayCursor {ε : Type} (t : FieldType) (ascending : Bool)
    (resetErr : Option ε) (q : arrayCursorIterator) :
    arrayCursorIterator × Option Nat × Option ε :=
  let picked : Nat × arrayCursorIterator :=
    match (if ascending then q.asc else q.desc).get t with
    | some c => (c, q)
    | none =>
      if ascending then
        (q.nextAlloc,
          { q with
            asc := q.asc.set t (some q.nextAlloc)
            nextAlloc := q.nextAlloc + 1 })
      else
        (q.nextAlloc,
          { q with
            desc := q.desc.set t (some q.nextAlloc)
            nextAlloc := q.nextAlloc + 1 })
  match resetErr with
  | some e => (picked.2, none, some e)
  | none => (picked.2, some picked.1, none)

lemma cursorPool.get_set_self (p : cursorPool) (t : FieldType)
    (c : Option Nat) : (p.set t c).get t = c := by
  cases t <;> rfl

lemma cursorPool.get_set_ne (p : cursorPool) (t t' : FieldType)
    (c : Option Nat) (h : t' ≠ t) : (p.set t c).get t' = p.get t' := by
  cases t <;> cases t' <;> first
    | rfl
    | exact absurd rfl h

/-- A cursor pool with all five slots empty. -/
def emptyPool : cursorPool :=
  { Float := none
    Integer := none
    Unsigned := none
    String := none
    Boolean := none }

/-- An iterator with all ten slots empty and allocation counter zero. -/
def emptyIterator : arrayCursorIterator :=
  { asc := emptyPool
    desc := emptyPool
    nextAlloc := 0 }

/-- The state produced by a build call that had to allocate the slot. -/
def allocState (t : FieldType) (dir : Bool) (q : arrayCursorIterator) :
    arrayCursorIterator :=
  if dir then
    { q with
      asc := q.asc.set t (some q.nextAlloc)
      nextAlloc := q.nextAlloc + 1 }
  else
    { q with
      desc := q.desc.set t (some q.nextAlloc)
      nextAlloc := q.nextAlloc + 1 }

lemma slot_allocState_self (t : FieldType) (dir : Bool)
    (q : arrayCursorIterator) :
    (allocState t dir q).slot t dir = some q.nextAlloc := by
  cases dir <;>
    simp [allocState, arrayCursorIterator.slot, cursorPool.get_set_self]

lemma slot_allocState_ne (t : FieldType) (dir : Bool)
    (q : arrayCursorIterator) (t' : FieldType) (dir' : Bool)
    (h : ¬(t' = t ∧ dir' = dir)) :
    (allocState t dir q).slot t' dir' = q.slot t' dir' := by
  cases dir <;> cases dir' <;>
    simp only [allocState, arrayCursorIterator.slot, if_true, if_false,
      Bool.false_eq_true, ite_true, ite_false]
  · exact cursorPool.get_set_ne _ _ _ _ (fun ht => h ⟨ht, rfl⟩)
  · exact cursorPool.get_set_ne _ _ _ _ (fun ht => h ⟨ht, rfl⟩)

lemma build_slot_some {ε : Type} (t : FieldType) (dir : Bool)
    (e : Option ε) (q : arrayCursorIterator) (c : Nat)
    (h : q.slot t dir = some c) :
    buildArrayCursor t dir e q = (q, if e.isSome then none else some c, e) := by
  cases dir <;> simp only [arrayCursorIterator.slot, if_true, if_false,
    Bool.false_eq_true, ite_true, ite_false] at h <;>
    cases e <;> simp [buildArrayCursor, h]

lemma build_slot_none {ε : Type} (t : FieldType) (dir : Bool)
    (e : Option ε) (q : arrayCursorIterator)
    (h : q.slot t dir = none) :
    buildArrayCursor t dir e q =
      (allocState t dir q,
        if e.isSome then none else some q.nextAlloc, e) := by
  cases dir <;> simp only [arrayCursorIterator.slot, if_true, if_false,
    Bool.false_eq_true, ite_true, ite_false] at h <;>
    cases e <;> simp [buildArrayCursor, allocState, h]

/-- C5: the (type, direction) cursor slot is populated lazily by the first
build call (receiving the fresh allocation token when it was empty, and
staying untouched when already populated), and a subsequent successful
build call for the same value type and direction returns exactly the
pooled instance — the token stored in the slot — while leaving the
iterator state unchanged, i.e. without allocating a new cursor. -/
theorem c5_cursor_pool_reuse {ε : Type} (t : FieldType) (dir : Bool)
    (e : Option ε) (q : arrayCursorIterator) :
    ((buildArrayCursor t dir e q).1.slot t dir).isSome = true ∧
    (q.slot t dir = none →
      (buildArrayCursor t dir e q).1.slot t dir = some q.nextAlloc) ∧
    (∀ c, q.slot t dir = some c →
      (buildArrayCursor t dir e q).1 = q ∧
      (buildArrayCursor t dir e q).1.slot t dir = some c) ∧
    (buildArrayCursor t dir (none : Option ε)
        (buildArrayCursor t dir e q).1).1
      = (buildArrayCursor t dir e q).1 ∧
    (buildArrayCursor t dir (none : Option ε)
        (buildArrayCursor t dir e q).1).2.1
      = (buildArrayCursor t dir e q).1.slot t dir := by
  cases hs : q.slot t dir with
  | some c =>
    rw [build_slot_some t dir e q c hs]
    dsimp only
    rw [build_slot_some t dir (none : Option ε) q c hs]
    dsimp only
    rw [hs]
    refine ⟨rfl, ?_, fun c' hc' => ⟨rfl, hc'⟩, rfl, rfl⟩
    intro hnone
    exact Option.noConfusion hnone
  | none =>
    rw [build_slot_none t dir e q hs]
    dsimp only
    have hself := slot_allocState_self t dir q
    rw [build_slot_some t dir (none : Option ε) _ q.nextAlloc hself]
    dsimp only
    rw [hself]
    refine ⟨rfl, fun _ => rfl, ?_, rfl, rfl⟩
    intro c' hc'
    exact Option.noConfusion hc'

theorem c5_witness :
    ((buildArrayCursor FieldType.Float true (none : Option Nat)
        emptyIterator).1.slot FieldType.Float true).isSome = true :=
  (c5_cursor_pool_reuse FieldType.Float true (none : Option Nat)
    emptyIterator).1

/-- C6: a build call returns exactly the reset error: when reset reports a
failure the build returns that error and a nil cursor, when reset succeeds
the build returns a cursor and a nil error, and a non-nil cursor and a
non-nil error are never returned together. -/
theorem c6_error_xor_cursor {ε : Type} (t : FieldType) (dir : Bool)
    (e : Option ε) (q : arrayCursorIterator) :
    (buildArrayCursor t dir e q).2.2 = e ∧
    (∀ x, e = some x → (buildArrayCursor t dir e q).2.1 = none) ∧
    (e = none → ∃ c, (buildArrayCursor t dir e q).2.1 = some c) ∧
    ¬((buildArrayCursor t dir e q).2.1 ≠ none ∧
      (buildArrayCursor t dir e q).2.2 ≠ none) := by
  cases hs : q.slot t dir with
  | some c =>
    rw [build_slot_some t dir e q c hs]
    dsimp only
    cases e with
    | none =>
      refine ⟨rfl, ?_, fun _ => ⟨c, rfl⟩, ?_⟩
      · intro x hx
        exact Option.noConfusion hx
      · intro hcontra
        exact hcontra.2 rfl
    | some x =>
      refine ⟨rfl, fun _ _ => rfl, ?_, ?_⟩
      · intro hx
        exact Option.noConfusion hx
      · intro hcontra
        exact hcontra.1 rfl
  | none =>
    rw [build_slot_none t dir e q hs]
    dsimp only
    cases e with
    | none =>
      refine ⟨rfl, ?_, fun _ => ⟨q.nextAlloc, rfl⟩, ?_⟩
      · intro x hx
        exact Option.noConfusion hx
      · intro hcontra
        exact hcontra.2 rfl
    | some x =>
      refine ⟨rfl, fun _ _ => rfl, ?_, ?_⟩
      · intro hx
        exact Option.noConfusion hx
      · intro hcontra
        exact hcontra.1 rfl

theorem c6_witness :
    (buildArrayCursor FieldType.Integer false (some 42 : Option Nat)
      emptyIterator).2.2 = some 42 :=
  (c6_error_xor_cursor FieldType.Integer false (some 42 : Option Nat)
    emptyIterator).1

/-- C10: when a build call fails (reset reports an error), the build
returns a nil cursor and that error, yet the (type, direction) slot is
populated afterwards; if the slot was already populated the whole iterator
state is unchanged; every other slot is unchanged in any case; and a later
successful build for the same type and direction returns exactly the
instance stored by the failed call, again without changing the state. -/
theorem c10_failed_build_keeps_slot {ε : Type} (t : FieldType) (dir : Bool)
    (x : ε) (q : arrayCursorIterator) :
    (buildArrayCursor t dir (some x) q).2.1 = none ∧
    (buildArrayCursor t dir (some x) q).2.2 = some x ∧
    ((buildArrayCursor t dir (some x) q).1.slot t dir).isSome = true ∧
    (∀ c, q.slot t dir = some c →
      (buildArrayCursor t dir (some x) q).1 = q) ∧
    (∀ (t' : FieldType) (dir' : Bool), ¬(t' = t ∧ dir' = dir) →
      (buildArrayCursor t dir (some x) q).1.slot t' dir'
        = q.slot t' dir') ∧
    (buildArrayCursor t dir (none : Option ε)
        (buildArrayCursor t dir (some x) q).1).2.1
      = (buildArrayCursor t dir (some x) q).1.slot t dir ∧
    (buildArrayCursor t dir (none : Option ε)
        (buildArrayCursor t dir (some x) q).1).1
      = (buildArrayCursor t dir (some x) q).1 := by
  cases hs : q.slot t dir with
  | some c =>
    rw [build_slot_some t dir (some x) q c hs]
    dsimp only
    rw [build_slot_some t dir (none : Option ε) q c hs]
    dsimp only
    rw [hs]
    exact ⟨rfl, rfl, rfl, fun _ _ => rfl, fun t' dir' _ => rfl, rfl, rfl⟩
  | none =>
    rw [build_slot_none t dir (some x) q hs]
    dsimp only
    have hself := slot_allocState_self t dir q
    rw [build_slot_some t dir (none : Option ε) _ q.nextAlloc hself]
    dsimp only
    rw [hself]
    refine ⟨rfl, rfl, rfl, ?_, ?_, rfl, rfl⟩
    · intro c' hc'
      exact Option.noConfusion hc'
    · intro t' dir' hne
      exact slot_allocState_ne t dir q t' dir' hne

theorem c10_witness :
    (buildArrayCursor FieldType.Boolean true (some 7 : Option Nat)
      emptyIterator).2.1 = none :=
  (c10_failed_build_keeps_slot FieldType.Boolean true (7 : Nat)
    emptyIterator).1
